import Mathlib

/-!
# Shallow embedding of `streamingconfig` (rbroggi/streamingconfig)

This file embeds the Go package `streamingconfig` (file `streamingconfig.go`)
in Lean 4 and proves properties of it.

Modelling choices:

* A caller-defined configuration value (`T Config` in Go, a struct with
  `json`/`default` field tags handled by `creasty/defaults`) is modelled as a
  list of fields.  Each field carries its current `value` and the declared
  default `hint` coming from the `default:"..."` struct tag (`none` models an
  absent/empty tag).  Field values are drawn from `Nat` with `0` as the Go
  zero value of the field's type; this captures the mechanics of
  `defaults.Set` (populate a field iff its tag is non-empty and its current
  value is the zero value) without committing to concrete Go field types.
* The MongoDB collection (`s.configs`) is modelled as a `List Versioned` in
  insertion order.  `InsertOne` with the uniqueness constraint on `_id`
  (= `Version`) fails with a duplicate-key error iff a record with the same
  version is already present.  `Find` with a sort option is modelled with
  `List.insertionSort` over the filtered records.
* Go `error` values are modelled by the inductive `GoErr`; the sentinel
  errors of the package are constructors, and caller-defined errors returned
  by the user's `Update` method are `GoErr.custom`.
* The caller's merge-and-validate method `Config.Update` (which in Go mutates
  its receiver and returns an error) is modelled as a function
  `upd : receiver → input → Except GoErr newReceiver`.
* Each network call of a repository method sees a snapshot of the database.
  `UpdateConfig` performs two calls (a read via `getLatest`, then an insert
  via `createConfig`); it therefore takes two snapshots, `storeRead` and
  `storeInsert`, which coincide when no concurrent writer interferes between
  the two calls.  It returns the Go result together with the database state
  after the call (unchanged unless the insert succeeded).
* `Start`'s interactions whose outcome is not a function of the collection
  contents (index creation, opening the change stream, transport failure of
  the initial read) are modelled by `ExtOutcome` parameters.
* Timestamps (`time.Time`, produced by the injectable `nowFunc`) are `Nat`.
-/

namespace Streamingconfig

/-- One field of a caller-defined configuration struct: its current value and
the parsed `default:"..."` struct-tag hint (`none` = no/empty tag).  The Go
zero value of the field's type is modelled by `0`. -/
structure Field where
  value : Nat
  hint : Option Nat
deriving DecidableEq

/-- A caller-defined configuration value (`T Config` in Go): its fields. -/
abbrev ConfigValue := List Field

/-- Go errors relevant to the package: the package's sentinel errors, the
driver's duplicate-key condition, storage/transport failures, and
caller-defined errors returned from the user's `Update` method. -/
inductive GoErr where
  | notStarted
  | configurationNotFound
  | concurrentUpdate
  | typeMustBePointer
  | storage (msg : String)
  | custom (msg : String)
deriving DecidableEq

/-- `Versioned[T]` of the Go source: a committed configuration record.
`Version` is the storage `_id` (unique key). -/
structure Versioned where
  Version : Nat
  UpdatedBy : String
  CreatedAt : Nat
  Config : ConfigValue
deriving DecidableEq

/-- The state of a `WatchedRepo[T]` that the embedded operations read or
write: the `started` flag, the `skipIndexOperation` option, the field shape
of the type parameter `T` (its declared default hints, used by
`reflect.New` to build `T`'s zero value), and the two cache-slot pointers
(`nil` modelled by `none`). -/
structure RepoState where
  started : Bool
  skipIndexOperation : Bool
  shape : List (Option Nat)
  cfg : Option Versioned
  cfgWithDefaults : Option Versioned
deriving DecidableEq

/-- The zero value of the caller's configuration type (all fields at their
zero value), as built by `reflect.New(typeOfT.Elem())`. -/
def zeroConfig (shape : List (Option Nat)) : ConfigValue :=
  shape.map fun h => ⟨0, h⟩

/-! ## Default overlay (`deepCopy`, `defaults.Set`, `copyAndSetDefaults`) -/

/-- `creasty/defaults` on one field: populate it iff the declared hint is
non-empty and the current value is the field's zero value. -/
def setDefaultsField (f : Field) : Field :=
  match f.hint with
  | some d => if f.value = 0 then ⟨d, some d⟩ else f
  | none => f

/-- `defaults.Set` on a configuration value: apply the per-field rule to
every field. -/
def setDefaults (c : ConfigValue) : ConfigValue :=
  c.map setDefaultsField

/-- `deepCopy` of the Go source: a JSON marshal/unmarshal round trip that
rebuilds the value structurally.  In the field model this rebuilds each
field. -/
def deepCopy (c : ConfigValue) : ConfigValue :=
  c.map fun f => ⟨f.value, f.hint⟩

/-- `copyAndSetDefaults` of the Go source on a configuration value:
deep copy, then `defaults.Set` on the copy. -/
def copyAndSetDefaults (c : ConfigValue) : ConfigValue :=
  setDefaults (deepCopy c)

/-- `defaults.Set` applied to a whole `Versioned[T]` record (as in the list
methods): `Version`, `UpdatedBy` and `CreatedAt` carry no `default` tags, so
only the embedded configuration is affected. -/
def setDefaultsVersioned (v : Versioned) : Versioned :=
  { v with Config := setDefaults v.Config }

/-- `copyAndSetDefaults` applied to a `*Versioned[T]` (as in `Start` and
`UpdateConfig`): deep copy of the record, then `defaults.Set`. -/
def copyAndSetDefaultsVersioned (v : Versioned) : Versioned :=
  setDefaultsVersioned { v with Config := deepCopy v.Config }

/-! ## Store operations -/

/-- Sort records by descending version (`Find` with sort `_id: -1`). -/
def sortByVersionDesc (l : List Versioned) : List Versioned :=
  List.insertionSort (fun a b => b.Version ≤ a.Version) l

/-- Sort records by ascending version (`Find` with sort `_id: 1`). -/
def sortByVersionAsc (l : List Versioned) : List Versioned :=
  List.insertionSort (fun a b => a.Version ≤ b.Version) l

/-- Sort records by ascending creation time (`Find` with sort
`created_at: 1`). -/
def sortByCreatedAtAsc (l : List Versioned) : List Versioned :=
  List.insertionSort (fun a b => a.CreatedAt ≤ b.CreatedAt) l

instance : DecidableRel (fun a b : Versioned => b.Version ≤ a.Version) :=
  fun a b => Nat.decLe b.Version a.Version

instance : DecidableRel (fun a b : Versioned => a.Version ≤ b.Version) :=
  fun a b => Nat.decLe a.Version b.Version

instance : DecidableRel (fun a b : Versioned => a.CreatedAt ≤ b.CreatedAt) :=
  fun a b => Nat.decLe a.CreatedAt b.CreatedAt

/-- `WatchedRepo.getLatest`: query the collection sorted by descending
version with limit 1; `ErrConfigurationNotFound` when the collection holds
no record. -/
def getLatest (store : List Versioned) : Except GoErr Versioned :=
  match (sortByVersionDesc store).head? with
  | none => .error .configurationNotFound
  | some c => .ok c

/-- `WatchedRepo.createConfig`: `InsertOne` against the uniqueness constraint
on `_id` (= version); a duplicate key yields `ErrConcurrentUpdate`. -/
def createConfig (store : List Versioned) (cfg : Versioned) :
    Except GoErr (List Versioned) :=
  if store.any fun r => r.Version == cfg.Version then .error .concurrentUpdate
  else .ok (store ++ [cfg])

/-! ## Repository operations -/

/-- Outcome of an external interaction of `Start` that is not a function of
the collection contents: index creation, opening the change stream, or a
transport failure of the initial read. -/
inductive ExtOutcome where
  | ok
  | fail (msg : String)
deriving DecidableEq

/-- `WatchedRepo.Start`: create indexes (unless skipped), establish the
change-stream subscription, then read the latest committed record to seed
the two cache slots; `ErrConfigurationNotFound` on that read is translated
into a synthetic zero-value record; finally mark the repository started.
Returns the repository state after a successful start. -/
def Start (s : RepoState) (store : List Versioned)
    (indexOutcome watchOutcome readOutcome : ExtOutcome) :
    Except GoErr RepoState :=
  match (if s.skipIndexOperation then ExtOutcome.ok else indexOutcome) with
  | .fail e => .error (.storage e)
  | .ok =>
    match watchOutcome with
    | .fail e => .error (.storage ("error watching configs: " ++ e))
    | .ok =>
      match (match readOutcome with
             | .fail e => Except.error (GoErr.storage e)
             | .ok => getLatest store) with
      | .error GoErr.configurationNotFound =>
          .ok { s with
                cfg := some ⟨0, "", 0, zeroConfig s.shape⟩,
                cfgWithDefaults := some (copyAndSetDefaultsVersioned
                  ⟨0, "", 0, zeroConfig s.shape⟩),
                started := true }
      | .error e => .error e
      | .ok latest =>
          .ok { s with
                cfg := some latest,
                cfgWithDefaults := some (copyAndSetDefaultsVersioned latest),
                started := true }

/-- `WatchedRepo.GetLatestVersion`: the cached defaults-overlaid record;
`ErrNotStarted` before `Start` completed. -/
def GetLatestVersion (s : RepoState) : Except GoErr (Option Versioned) :=
  if s.started = false then .error .notStarted
  else .ok s.cfgWithDefaults

/-- `WatchedRepo.GetConfig`: the configuration inside
`GetLatestVersion`'s record. -/
def GetConfig (s : RepoState) : Except GoErr (Option ConfigValue) :=
  match GetLatestVersion s with
  | .error e => .error e
  | .ok v => .ok (v.map Versioned.Config)

/-- `ListVersionedConfigsQuery` of the Go source (`FromVersion` inclusive,
`ToVersion` exclusive). -/
structure ListVersionedConfigsQuery where
  FromVersion : Nat
  ToVersion : Nat

/-- `ListConfigDatesQuery` of the Go source (`From` inclusive, `To`
exclusive). -/
structure ListConfigDatesQuery where
  From : Nat
  To : Nat

/-- `WatchedRepo.ListVersionedConfigs`: `ErrNotStarted` before `Start`;
otherwise query the records with `FromVersion ≤ _id < ToVersion` sorted by
ascending version, and apply `defaults.Set` to each decoded record. -/
def ListVersionedConfigs (s : RepoState) (store : List Versioned)
    (query : ListVersionedConfigsQuery) : Except GoErr (List Versioned) :=
  if s.started = false then .error .notStarted
  else
    .ok (((sortByVersionAsc (store.filter fun r =>
        decide (query.FromVersion ≤ r.Version ∧ r.Version < query.ToVersion))).map
      setDefaultsVersioned))

/-- `WatchedRepo.ListVersionedConfigsByDate`: `ErrNotStarted` before
`Start`; otherwise query the records with `From ≤ created_at < To` sorted by
ascending creation time, and apply `defaults.Set` to each decoded record. -/
def ListVersionedConfigsByDate (s : RepoState) (store : List Versioned)
    (query : ListConfigDatesQuery) : Except GoErr (List Versioned) :=
  if s.started = false then .error .notStarted
  else
    .ok (((sortByCreatedAtAsc (store.filter fun r =>
        decide (query.From ≤ r.CreatedAt ∧ r.CreatedAt < query.To))).map
      setDefaultsVersioned))

/-- `UpdateConfigCmd[T]` of the Go source. -/
structure UpdateConfigCmd where
  By : String
  Config : ConfigValue

/-- `WatchedRepo.UpdateConfig`: guard on `started`; read the latest committed
record (`storeRead` is the database snapshot seen by that read); with no
prior record, validate the candidate against itself and insert it as
version 1; otherwise run the caller's merge-and-validate `upd` with the
current value as receiver and the candidate as input, and insert the result
tagged `curr.Version + 1`.  The insert sees the snapshot `storeInsert`
(equal to `storeRead` when no concurrent writer interfered).  Returns the Go
result (on success, the new record with defaults overlaid) paired with the
database state after the call. -/
def UpdateConfig (upd : ConfigValue → ConfigValue → Except GoErr ConfigValue)
    (s : RepoState) (storeRead storeInsert : List Versioned)
    (cmd : UpdateConfigCmd) (now : Nat) :
    Except GoErr Versioned × List Versioned :=
  if s.started = false then (.error .notStarted, storeInsert)
  else
    match getLatest storeRead with
    | .error GoErr.configurationNotFound =>
        match upd cmd.Config cmd.Config with
        | .error e => (.error e, storeInsert)
        | .ok appCfg =>
          match createConfig storeInsert ⟨1, cmd.By, now, appCfg⟩ with
          | .error e => (.error e, storeInsert)
          | .ok store' =>
              (.ok (copyAndSetDefaultsVersioned ⟨1, cmd.By, now, appCfg⟩),
               store')
    | .error e => (.error e, storeInsert)
    | .ok curr =>
        match upd curr.Config cmd.Config with
        | .error e => (.error e, storeInsert)
        | .ok updatedConfig =>
          match createConfig storeInsert
              ⟨curr.Version + 1, cmd.By, now, updatedConfig⟩ with
          | .error e => (.error e, storeInsert)
          | .ok store' =>
              (.ok (copyAndSetDefaultsVersioned
                ⟨curr.Version + 1, cmd.By, now, updatedConfig⟩), store')

/-- A sequence of `UpdateConfig` calls run one after the other (no
interference: each call's read and insert see the same snapshot), threading
the database state; `none` as soon as one call fails.  Returns the final
database state and the records returned to the caller, in call order. -/
def runUpdates (upd : ConfigValue → ConfigValue → Except GoErr ConfigValue)
    (s : RepoState) (store : List Versioned) :
    List (UpdateConfigCmd × Nat) → Option (List Versioned × List Versioned)
  | [] => some (store, [])
  | (cmd, now) :: rest =>
      match UpdateConfig upd s store store cmd now with
      | (.ok ret, store') =>
          match runUpdates upd s store' rest with
          | none => none
          | some (storeF, rets) => some (storeF, ret :: rets)
      | (.error _, _) => none

/-! ## Helper lemmas -/

instance : IsTotal Versioned (fun a b => b.Version ≤ a.Version) :=
  ⟨fun a b => (Nat.le_total a.Version b.Version).symm⟩

instance : IsTrans Versioned (fun a b => b.Version ≤ a.Version) :=
  ⟨fun _ _ _ hab hbc => Nat.le_trans hbc hab⟩

instance : IsTotal Versioned (fun a b => a.Version ≤ b.Version) :=
  ⟨fun a b => Nat.le_total a.Version b.Version⟩

instance : IsTrans Versioned (fun a b => a.Version ≤ b.Version) :=
  ⟨fun _ _ _ hab hbc => Nat.le_trans hab hbc⟩

theorem deepCopy_eq (c : ConfigValue) : deepCopy c = c := by
  simp [deepCopy]

theorem setDefaultsField_idem (f : Field) :
    setDefaultsField (setDefaultsField f) = setDefaultsField f := by
  rcases f with ⟨v, h⟩
  cases h with
  | none => rfl
  | some d =>
    by_cases hv : v = 0 <;> by_cases hd : d = 0 <;>
      simp [setDefaultsField, hv, hd]

theorem setDefaults_idem (c : ConfigValue) :
    setDefaults (setDefaults c) = setDefaults c := by
  simp only [setDefaults, List.map_map]
  exact List.map_congr_left fun f _ => setDefaultsField_idem f

theorem copyAndSetDefaults_eq (c : ConfigValue) :
    copyAndSetDefaults c = setDefaults c := by
  simp [copyAndSetDefaults, deepCopy_eq]

theorem copyAndSetDefaultsVersioned_eq (v : Versioned) :
    copyAndSetDefaultsVersioned v = setDefaultsVersioned v := by
  simp [copyAndSetDefaultsVersioned, setDefaultsVersioned, deepCopy_eq]

theorem Version_setDefaultsVersioned (v : Versioned) :
    (setDefaultsVersioned v).Version = v.Version := rfl

theorem Version_copyAndSetDefaultsVersioned (v : Versioned) :
    (copyAndSetDefaultsVersioned v).Version = v.Version := rfl

/-- A successful `getLatest` returns a stored record of maximal version. -/
theorem getLatest_ok {store : List Versioned} {m : Versioned}
    (h : getLatest store = .ok m) :
    m ∈ store ∧ ∀ r ∈ store, r.Version ≤ m.Version := by
  unfold getLatest at h
  cases hs : sortByVersionDesc store with
  | nil => rw [hs] at h; simp at h
  | cons a t =>
    rw [hs] at h
    simp only [List.head?_cons, Except.ok.injEq] at h
    subst h
    have hsorted : List.Sorted (fun a b : Versioned => b.Version ≤ a.Version)
        (a :: t) := by
      rw [← hs]
      exact List.sorted_insertionSort _ store
    have hmemsort : ∀ r ∈ store, r ∈ a :: t := by
      intro r hr
      rw [← hs]
      exact (List.mem_insertionSort _).mpr hr
    constructor
    · have : a ∈ sortByVersionDesc store := by
        rw [hs]; exact List.mem_cons_self a t
      exact (List.mem_insertionSort _).mp this
    · intro r hr
      rcases List.mem_cons.mp (hmemsort r hr) with h1 | h1
      · exact Nat.le_of_eq (congrArg Versioned.Version h1)
      · exact List.rel_of_sorted_cons hsorted r h1

theorem getLatest_nil : getLatest ([] : List Versioned)
    = .error .configurationNotFound := rfl

theorem getLatest_error {store : List Versioned} {e : GoErr}
    (h : getLatest store = .error e) :
    store = [] ∧ e = .configurationNotFound := by
  unfold getLatest at h
  cases hs : sortByVersionDesc store with
  | nil =>
    refine ⟨?_, by rw [hs] at h; simpa using h.symm⟩
    have := List.perm_insertionSort
      (fun a b : Versioned => b.Version ≤ a.Version) store
    rw [sortByVersionDesc] at hs
    rw [hs] at this
    exact this.symm.eq_nil
  | cons a t => rw [hs] at h; simp at h

/-- If the stored versions are exactly `1..k` with `k ≠ 0`, `getLatest`
returns a record of version `k`. -/
theorem getLatest_of_range {store : List Versioned} {k : Nat} (hk : k ≠ 0)
    (hinv : store.map Versioned.Version = List.range' 1 k) :
    ∃ m, getLatest store = .ok m ∧ m.Version = k := by
  cases hg : getLatest store with
  | error e =>
    rcases getLatest_error hg with ⟨hnil, _⟩
    rw [hnil] at hinv
    simp [List.range'_eq_nil] at hinv
    exact absurd hinv hk
  | ok m =>
    refine ⟨m, rfl, ?_⟩
    rcases getLatest_ok hg with ⟨hmem, hmax⟩
    have hmv : m.Version ∈ List.range' 1 k := by
      rw [← hinv]; exact List.mem_map_of_mem Versioned.Version hmem
    have hub : m.Version ≤ k := by
      have := List.mem_range'_1.mp hmv
      omega
    have hkmem : k ∈ store.map Versioned.Version := by
      rw [hinv]
      exact List.mem_range'_1.mpr ⟨Nat.one_le_iff_ne_zero.mpr hk, by omega⟩
    rcases List.mem_map.mp hkmem with ⟨r, hr, hrv⟩
    have := hmax r hr
    omega

/-- One successful `UpdateConfig` on a store holding exactly versions `1..k`
commits version `k + 1` (version `1` when the store is empty) and returns a
record of that version. -/
theorem updateConfig_ok_of_range
    {upd : ConfigValue → ConfigValue → Except GoErr ConfigValue}
    {s : RepoState} {store : List Versioned} {cmd : UpdateConfigCmd}
    {now : Nat} {ret : Versioned} {store' : List Versioned} {k : Nat}
    (hinv : store.map Versioned.Version = List.range' 1 k)
    (hok : UpdateConfig upd s store store cmd now = (.ok ret, store')) :
    store'.map Versioned.Version = List.range' 1 (k + 1)
    ∧ ret.Version = k + 1 := by
  by_cases hstart : s.started = false
  · rw [UpdateConfig, if_pos hstart] at hok
    exact absurd (congrArg Prod.fst hok) (by simp)
  rw [UpdateConfig, if_neg hstart] at hok
  split at hok
  · -- getLatest reported no committed record: the store is empty, k = 0
    rename_i heq
    have hnil : store = [] := (getLatest_error heq).1
    have hk : k = 0 := by
      rw [hnil] at hinv
      have h0 : List.range' 1 k = [] := by simpa using hinv.symm
      exact List.range'_eq_nil.mp h0
    subst hnil; subst hk
    split at hok
    · exact absurd (congrArg Prod.fst hok) (by simp)
    · rename_i appCfg hu
      split at hok
      · exact absurd (congrArg Prod.fst hok) (by simp)
      · rename_i store2 hcc
        have hstore2 : store2 = [⟨1, cmd.By, now, appCfg⟩] := by
          simpa [createConfig] using hcc.symm
        have h1 : ret = copyAndSetDefaultsVersioned ⟨1, cmd.By, now, appCfg⟩ := by
          simpa using (congrArg Prod.fst hok).symm
        have h2 : store' = store2 := by
          simpa using (congrArg Prod.snd hok).symm
        subst h1; subst h2; subst hstore2
        simp [Version_copyAndSetDefaultsVersioned, List.range']
  · -- getLatest failed with another error: impossible given `hok`
    exact absurd (congrArg Prod.fst hok) (by simp)
  · -- a record exists: it carries version k, and version k + 1 is committed
    rename_i curr heq
    have hk : k ≠ 0 := by
      intro hk0
      subst hk0
      have h0 : store.map Versioned.Version = [] := by simpa using hinv
      have hnil : store = [] := List.map_eq_nil_iff.mp h0
      rw [hnil, getLatest_nil] at heq
      exact absurd heq (by simp)
    rcases getLatest_of_range hk hinv with ⟨m, hg, hmv⟩
    rw [heq] at hg
    have hcurr : curr = m := by simpa using hg
    subst hcurr
    split at hok
    · exact absurd (congrArg Prod.fst hok) (by simp)
    · rename_i newCfg hu
      split at hok
      · exact absurd (congrArg Prod.fst hok) (by simp)
      · rename_i store2 hcc
        have hstore2 : store2
            = store ++ [⟨curr.Version + 1, cmd.By, now, newCfg⟩] := by
          unfold createConfig at hcc
          by_cases hdup : store.any fun r => r.Version == curr.Version + 1
          · rw [if_pos (by simpa using hdup)] at hcc; simp at hcc
          · rw [if_neg (by simpa using hdup)] at hcc
            simpa using hcc.symm
        have h1 : ret
            = copyAndSetDefaultsVersioned
                ⟨curr.Version + 1, cmd.By, now, newCfg⟩ := by
          simpa using (congrArg Prod.fst hok).symm
        have h2 : store' = store2 := by
          simpa using (congrArg Prod.snd hok).symm
        subst h1; subst h2; subst hstore2
        constructor
        · rw [List.map_append, hinv, hmv]
          have hconcat := @List.range'_concat 1 1 k
          simp only [Nat.one_mul] at hconcat
          rw [hconcat]
          simp [Nat.add_comm]
        · rw [Version_copyAndSetDefaultsVersioned]
          simp [hmv]

/-- Running a sequence of `UpdateConfig` calls on a store holding exactly
versions `1..k`: if all calls succeed, the final store holds exactly
versions `1..k+n` and the returned records carry versions `k+1..k+n`, in
call order. -/
theorem runUpdates_versions
    {upd : ConfigValue → ConfigValue → Except GoErr ConfigValue}
    {s : RepoState} :
    ∀ (cmds : List (UpdateConfigCmd × Nat)) (store : List Versioned) (k : Nat)
      (storeF rets : List Versioned),
    store.map Versioned.Version = List.range' 1 k →
    runUpdates upd s store cmds = some (storeF, rets) →
    storeF.map Versioned.Version = List.range' 1 (k + cmds.length)
    ∧ rets.map Versioned.Version = List.range' (k + 1) cmds.length
  | [], store, k, storeF, rets, hinv, hrun => by
    simp only [runUpdates, Option.some.injEq, Prod.mk.injEq] at hrun
    rw [← hrun.1, ← hrun.2]
    simpa using hinv
  | (cmd, now) :: rest, store, k, storeF, rets, hinv, hrun => by
    rw [runUpdates] at hrun
    split at hrun
    · rename_i ret store' hu
      split at hrun
      · exact absurd hrun (by simp)
      · rename_i p sF rs hr
        simp only [Option.some.injEq, Prod.mk.injEq] at hrun
        rcases hrun with ⟨hsF, hrets⟩
        rcases updateConfig_ok_of_range hinv hu with ⟨hinv', hretv⟩
        rcases runUpdates_versions rest store' (k + 1) sF rs hinv' hr
          with ⟨hfin, hrs⟩
        subst hsF
        rw [← hrets]
        constructor
        · rw [hfin, List.length_cons]
          congr 1
          omega
        · rw [List.map_cons, hrs, hretv, List.length_cons, List.range'_succ]
    · rename_i e store' hu
      exact absurd hrun (by simp)

/-! ## Claim theorems -/

/-- C1: for every `UpdateConfig` call whose insert hits the uniqueness
constraint on `version` — on the first-write branch (the read found no
record but a concurrent writer committed version 1 before the insert) as
well as on the record-exists branch (a record with the contested version
`curr.Version + 1` was committed between the read and the insert) —
`UpdateConfig` returns `ErrConcurrentUpdate` and leaves the store
unchanged: it performs no retry of the read-modify-insert cycle (the call
ends at the error), and the store holds exactly one committed record at the
contested version. -/
theorem c1_duplicate_insert_concurrent_error
    (upd : ConfigValue → ConfigValue → Except GoErr ConfigValue)
    (s : RepoState) (storeRead storeInsert : List Versioned)
    (cmd : UpdateConfigCmd) (now : Nat)
    (hstart : s.started = true)
    (hnodup : (storeInsert.map Versioned.Version).Nodup) :
    (∀ c, getLatest storeRead = .error .configurationNotFound →
      upd cmd.Config cmd.Config = .ok c →
      1 ∈ storeInsert.map Versioned.Version →
      UpdateConfig upd s storeRead storeInsert cmd now
        = (.error .concurrentUpdate, storeInsert)
      ∧ (storeInsert.map Versioned.Version).count 1 = 1)
    ∧ ∀ curr c, getLatest storeRead = .ok curr →
      upd curr.Config cmd.Config = .ok c →
      curr.Version + 1 ∈ storeInsert.map Versioned.Version →
      UpdateConfig upd s storeRead storeInsert cmd now
        = (.error .concurrentUpdate, storeInsert)
      ∧ (storeInsert.map Versioned.Version).count (curr.Version + 1) = 1 := by
  constructor
  · intro c hread hupd hdup
    rcases List.mem_map.mp hdup with ⟨r, hr, hrv⟩
    have hany : (storeInsert.any fun r => r.Version == 1) = true :=
      List.any_eq_true.mpr ⟨r, hr, by simp [hrv]⟩
    refine ⟨?_, List.count_eq_one_of_mem hnodup hdup⟩
    simp [UpdateConfig, hstart, hread, hupd, createConfig, hany]
  · intro curr c hread hupd hdup
    rcases List.mem_map.mp hdup with ⟨r, hr, hrv⟩
    have hany : (storeInsert.any fun r => r.Version == curr.Version + 1)
        = true :=
      List.any_eq_true.mpr ⟨r, hr, by simp [hrv]⟩
    refine ⟨?_, List.count_eq_one_of_mem hnodup hdup⟩
    simp [UpdateConfig, hstart, hread, hupd, createConfig, hany]

/-- C2: starting from an empty stream, a sequence of `n` successful
`UpdateConfig` calls commits exactly the versions `1, 2, …, n` in order
(`List.range' 1 n`): the `i`-th successful write returns a record of version
`i`, committed versions are gapless ascending from `1`, and no two committed
records share a version. -/
theorem c2_monotonic_gapless_versions
    (upd : ConfigValue → ConfigValue → Except GoErr ConfigValue)
    (s : RepoState) (cmds : List (UpdateConfigCmd × Nat))
    (storeF rets : List Versioned)
    (h : runUpdates upd s [] cmds = some (storeF, rets)) :
    storeF.map Versioned.Version = List.range' 1 cmds.length
    ∧ rets.map Versioned.Version = List.range' 1 cmds.length
    ∧ (storeF.map Versioned.Version).Nodup := by
  rcases runUpdates_versions cmds [] 0 storeF rets (by simp) h with ⟨h1, h2⟩
  have h1' : storeF.map Versioned.Version = List.range' 1 cmds.length := by
    simpa using h1
  refine ⟨h1', by simpa using h2, ?_⟩
  rw [h1']
  exact List.nodup_range' 1 cmds.length

/-- C3: whenever the caller-supplied merge-and-validate operation fails —
with or without a prior committed record — `UpdateConfig` returns that error
verbatim and performs no insert: the store (hence the latest committed
version) is unchanged. -/
theorem c3_validation_error_verbatim_no_insert
    (upd : ConfigValue → ConfigValue → Except GoErr ConfigValue)
    (s : RepoState) (storeRead storeInsert : List Versioned)
    (cmd : UpdateConfigCmd) (now : Nat) (e : GoErr)
    (hstart : s.started = true) :
    (getLatest storeRead = .error .configurationNotFound →
      upd cmd.Config cmd.Config = .error e →
      UpdateConfig upd s storeRead storeInsert cmd now
        = (.error e, storeInsert))
    ∧ ∀ curr, getLatest storeRead = .ok curr →
      upd curr.Config cmd.Config = .error e →
      UpdateConfig upd s storeRead storeInsert cmd now
        = (.error e, storeInsert) := by
  constructor
  · intro hread hupd
    simp [UpdateConfig, hstart, hread, hupd]
  · intro curr hread hupd
    simp [UpdateConfig, hstart, hread, hupd]

/-- C4: for every successful `UpdateConfig` call (first write or later
write), the record appended to the store carries the merged configuration
with no defaults overlay, while the value returned to the caller is exactly
that record with the defaults overlay applied — the overlay happens after
the insert and never reaches what is written. -/
theorem c4_persist_raw_return_overlaid
    (upd : ConfigValue → ConfigValue → Except GoErr ConfigValue)
    (s : RepoState) (storeRead storeInsert : List Versioned)
    (cmd : UpdateConfigCmd) (now : Nat)
    (hstart : s.started = true) :
    (∀ c, getLatest storeRead = .error .configurationNotFound →
      upd cmd.Config cmd.Config = .ok c →
      (storeInsert.any fun r => r.Version == 1) = false →
      UpdateConfig upd s storeRead storeInsert cmd now
        = (.ok (setDefaultsVersioned ⟨1, cmd.By, now, c⟩),
           storeInsert ++ [⟨1, cmd.By, now, c⟩]))
    ∧ ∀ curr c, getLatest storeRead = .ok curr →
      upd curr.Config cmd.Config = .ok c →
      (storeInsert.any fun r => r.Version == curr.Version + 1) = false →
      UpdateConfig upd s storeRead storeInsert cmd now
        = (.ok (setDefaultsVersioned ⟨curr.Version + 1, cmd.By, now, c⟩),
           storeInsert ++ [⟨curr.Version + 1, cmd.By, now, c⟩]) := by
  constructor
  · intro c hread hupd hfree
    simp [UpdateConfig, hstart, hread, hupd, createConfig, hfree,
      copyAndSetDefaultsVersioned_eq]
  · intro curr c hread hupd hfree
    simp [UpdateConfig, hstart, hread, hupd, createConfig, hfree,
      copyAndSetDefaultsVersioned_eq]

/-- C6: on an `UpdateConfig` call with no committed record, the caller's
merge-and-validate operation is run with the candidate as both receiver and
input before any insert; a validation error aborts the call with no insert,
and on validation success the validated candidate is persisted as
version 1. -/
theorem c6_first_write_self_validation
    (upd : ConfigValue → ConfigValue → Except GoErr ConfigValue)
    (s : RepoState) (storeRead storeInsert : List Versioned)
    (cmd : UpdateConfigCmd) (now : Nat)
    (hstart : s.started = true)
    (hnf : getLatest storeRead = .error .configurationNotFound) :
    (∀ e, upd cmd.Config cmd.Config = .error e →
      UpdateConfig upd s storeRead storeInsert cmd now
        = (.error e, storeInsert))
    ∧ ∀ c, upd cmd.Config cmd.Config = .ok c →
      (storeInsert.any fun r => r.Version == 1) = false →
      UpdateConfig upd s storeRead storeInsert cmd now
        = (.ok (copyAndSetDefaultsVersioned ⟨1, cmd.By, now, c⟩),
           storeInsert ++ [⟨1, cmd.By, now, c⟩]) := by
  constructor
  · intro e hupd
    simp [UpdateConfig, hstart, hnf, hupd]
  · intro c hupd hfree
    simp [UpdateConfig, hstart, hnf, hupd, createConfig, hfree]

/-- C8: every public read or write operation invoked before `Start` has
completed fails with `ErrNotStarted`: `GetConfig`, `GetLatestVersion`,
`ListVersionedConfigs`, `ListVersionedConfigsByDate` and `UpdateConfig`. -/
theorem c8_not_started_guard
    (upd : ConfigValue → ConfigValue → Except GoErr ConfigValue)
    (s : RepoState) (storeRead storeInsert : List Versioned)
    (cmd : UpdateConfigCmd) (now : Nat)
    (q : ListVersionedConfigsQuery) (qd : ListConfigDatesQuery)
    (h : s.started = false) :
    GetConfig s = .error .notStarted
    ∧ GetLatestVersion s = .error .notStarted
    ∧ ListVersionedConfigs s storeRead q = .error .notStarted
    ∧ ListVersionedConfigsByDate s storeRead qd = .error .notStarted
    ∧ UpdateConfig upd s storeRead storeInsert cmd now
        = (.error .notStarted, storeInsert) := by
  refine ⟨?_, ?_, ?_, ?_, ?_⟩ <;>
    simp [GetConfig, GetLatestVersion, ListVersionedConfigs,
      ListVersionedConfigsByDate, UpdateConfig, h]

/-- C5: the defaults overlay is a pure function (it is a function of its
argument and mutates nothing — the deep copy equals the original value),
it preserves the field count, it populates exactly the fields whose declared
hint is non-empty and whose value is the zero value while leaving
already-set and hint-less fields untouched, and it is idempotent:
`overlay (overlay x) = overlay x`. -/
theorem c5_overlay_pure_idempotent (x : ConfigValue) (i d : Nat)
    (h : i < x.length) :
    copyAndSetDefaults (copyAndSetDefaults x) = copyAndSetDefaults x
    ∧ deepCopy x = x
    ∧ (copyAndSetDefaults x).length = x.length
    ∧ (x[i].value ≠ 0 → (copyAndSetDefaults x)[i]? = some x[i])
    ∧ (x[i].hint = none → (copyAndSetDefaults x)[i]? = some x[i])
    ∧ (x[i].hint = some d → x[i].value = 0 →
        (copyAndSetDefaults x)[i]? = some ⟨d, some d⟩) := by
  have hbase : (copyAndSetDefaults x)[i]? = some (setDefaultsField x[i]) := by
    rw [copyAndSetDefaults_eq, setDefaults, List.getElem?_map,
      List.getElem?_eq_getElem h]
    rfl
  refine ⟨by simp [copyAndSetDefaults_eq, setDefaults_idem],
    deepCopy_eq x,
    by simp [copyAndSetDefaults, setDefaults, deepCopy],
    ?_, ?_, ?_⟩
  · intro hv
    rw [hbase]
    cases hh : x[i].hint with
    | none => simp [setDefaultsField, hh]
    | some d2 => simp [setDefaultsField, hh, hv]
  · intro hh
    rw [hbase]
    simp [setDefaultsField, hh]
  · intro hh hv
    rw [hbase]
    simp [setDefaultsField, hh, hv]

/-- C7: `Start` establishes the change-feed subscription before the initial
point read (a subscription failure aborts `Start` with that failure, for
every read outcome and store contents); an index-creation failure or a
transport failure of the initial read also aborts `Start`; when the initial
read reports that no record exists, `Start` succeeds, seeds the cache with a
synthetic zero-value record instead of propagating the not-found condition,
and a subsequent read observes the zero configuration with defaults
overlaid. -/
theorem c7_start_subscription_seed
    (s : RepoState) (store : List Versioned) (e : String)
    (rOut wOut : ExtOutcome) :
    Start s store .ok (.fail e) rOut
      = .error (.storage ("error watching configs: " ++ e))
    ∧ (s.skipIndexOperation = false →
        Start s store (.fail e) wOut rOut = .error (.storage e))
    ∧ Start s store .ok .ok (.fail e) = .error (.storage e)
    ∧ (getLatest store = .error .configurationNotFound →
        Start s store .ok .ok .ok
          = .ok { s with
                  cfg := some ⟨0, "", 0, zeroConfig s.shape⟩,
                  cfgWithDefaults := some (copyAndSetDefaultsVersioned
                    ⟨0, "", 0, zeroConfig s.shape⟩),
                  started := true }
        ∧ GetConfig { s with
                  cfg := some ⟨0, "", 0, zeroConfig s.shape⟩,
                  cfgWithDefaults := some (copyAndSetDefaultsVersioned
                    ⟨0, "", 0, zeroConfig s.shape⟩),
                  started := true }
          = .ok (some (setDefaults (zeroConfig s.shape)))) := by
  refine ⟨?_, ?_, ?_, ?_⟩
  · simp [Start]
  · intro hskip
    simp [Start, hskip]
  · simp [Start]
  · intro hnf
    constructor
    · simp [Start, hnf]
    · simp [GetConfig, GetLatestVersion, copyAndSetDefaultsVersioned,
        setDefaultsVersioned, deepCopy_eq]

/-- A repository state after a successful `Start` (used by the concrete
instances below). -/
def repoStarted : RepoState :=
  ⟨true, false, [some 7, none], none, none⟩

/-- A store holding committed versions `1..5`. -/
def exampleStore5 : List Versioned :=
  [⟨1, "a", 10, []⟩, ⟨2, "b", 11, []⟩, ⟨3, "c", 12, []⟩,
   ⟨4, "d", 13, []⟩, ⟨5, "e", 14, []⟩]

/-- C9: on a started repository, `ListVersionedConfigs` succeeds for every
bounds pair and returns exactly the committed records whose version `v`
satisfies `from ≤ v < to`, ordered by ascending version — an empty sequence,
not an error, when nothing matches; in particular, with committed versions
`1..5` the query `(1,3)` returns versions `[1, 2]` and the query `(6,10)`
returns `[]` with no error. -/
theorem c9_range_query_correct (s : RepoState) (store : List Versioned)
    (q : ListVersionedConfigsQuery) (h : s.started = true) :
    (∃ l, ListVersionedConfigs s store q = .ok l
      ∧ (∀ v, v ∈ l.map Versioned.Version ↔
          ∃ r ∈ store, r.Version = v ∧ q.FromVersion ≤ v ∧ v < q.ToVersion)
      ∧ (l.map Versioned.Version).Sorted (fun a b => a ≤ b))
    ∧ Except.map (fun l => l.map Versioned.Version)
        (ListVersionedConfigs repoStarted exampleStore5 ⟨1, 3⟩)
      = .ok [1, 2]
    ∧ Except.map (fun l => l.map Versioned.Version)
        (ListVersionedConfigs repoStarted exampleStore5 ⟨6, 10⟩)
      = .ok [] := by
  refine ⟨?_, by rfl, by rfl⟩
  refine ⟨(sortByVersionAsc (store.filter fun r =>
      decide (q.FromVersion ≤ r.Version ∧ r.Version < q.ToVersion))).map
      setDefaultsVersioned, by simp [ListVersionedConfigs, h], ?_, ?_⟩
  · intro v
    constructor
    · intro hv
      rw [List.map_map] at hv
      rcases List.mem_map.mp hv with ⟨r, hr, hrv⟩
      have hr2 : r ∈ store.filter fun r =>
          decide (q.FromVersion ≤ r.Version ∧ r.Version < q.ToVersion) :=
        (List.mem_insertionSort _).mp hr
      rcases List.mem_filter.mp hr2 with ⟨hrs, hrp⟩
      rcases of_decide_eq_true hrp with ⟨h1, h2⟩
      exact ⟨r, hrs, by simpa using hrv, by simpa [← (by simpa using hrv :
        r.Version = v)] using h1, by simpa [← (by simpa using hrv :
        r.Version = v)] using h2⟩
    · rintro ⟨r, hr, hrv, h1, h2⟩
      rw [List.map_map]
      refine List.mem_map.mpr ⟨r, (List.mem_insertionSort _).mpr
        (List.mem_filter.mpr ⟨hr, decide_eq_true_iff.mpr
          ⟨by omega, by omega⟩⟩), by simpa using hrv⟩
  · rw [List.map_map]
    have hsorted := List.sorted_insertionSort
      (fun a b : Versioned => a.Version ≤ b.Version)
      (store.filter fun r =>
        decide (q.FromVersion ≤ r.Version ∧ r.Version < q.ToVersion))
    exact List.Pairwise.map _ (fun a b hab => hab) hsorted

/-- C10: on a started repository, every element returned by
`ListVersionedConfigs` and `ListVersionedConfigsByDate` is the defaults
overlay of a committed record matching the query — the lists hand out
display copies, not the records exactly as committed. -/
theorem c10_list_results_overlaid (s : RepoState) (store : List Versioned)
    (q : ListVersionedConfigsQuery) (qd : ListConfigDatesQuery)
    (h : s.started = true) :
    (∀ l, ListVersionedConfigs s store q = .ok l →
      ∀ x ∈ l, ∃ r ∈ store,
        (q.FromVersion ≤ r.Version ∧ r.Version < q.ToVersion)
        ∧ x = setDefaultsVersioned r)
    ∧ ∀ l, ListVersionedConfigsByDate s store qd = .ok l →
      ∀ x ∈ l, ∃ r ∈ store,
        (qd.From ≤ r.CreatedAt ∧ r.CreatedAt < qd.To)
        ∧ x = setDefaultsVersioned r := by
  constructor
  · intro l hl x hx
    have hll : l = (sortByVersionAsc (store.filter fun r =>
        decide (q.FromVersion ≤ r.Version ∧ r.Version < q.ToVersion))).map
        setDefaultsVersioned := by
      have := hl.symm
      simpa [ListVersionedConfigs, h] using this
    subst hll
    rcases List.mem_map.mp hx with ⟨r, hr, hrx⟩
    have hr2 := (List.mem_insertionSort _).mp hr
    rcases List.mem_filter.mp hr2 with ⟨hrs, hrp⟩
    exact ⟨r, hrs, of_decide_eq_true hrp, hrx.symm⟩
  · intro l hl x hx
    have hll : l = (sortByCreatedAtAsc (store.filter fun r =>
        decide (qd.From ≤ r.CreatedAt ∧ r.CreatedAt < qd.To))).map
        setDefaultsVersioned := by
      have := hl.symm
      simpa [ListVersionedConfigsByDate, h] using this
    subst hll
    rcases List.mem_map.mp hx with ⟨r, hr, hrx⟩
    have hr2 := (List.mem_insertionSort _).mp hr
    rcases List.mem_filter.mp hr2 with ⟨hrs, hrp⟩
    exact ⟨r, hrs, of_decide_eq_true hrp, hrx.symm⟩

/-! ## Concrete instances -/

/-- Example merge-and-validate: full replacement, never failing (the shape
of the `Update` method of the example server's `conf` type). -/
def updReplace : ConfigValue → ConfigValue → Except GoErr ConfigValue :=
  fun _ new => .ok new

/-- Example merge-and-validate that rejects every candidate. -/
def updReject : ConfigValue → ConfigValue → Except GoErr ConfigValue :=
  fun _ _ => .error (.custom "invalid config")

/-- A repository state before `Start`. -/
def repoInit : RepoState :=
  ⟨false, false, [some 7, none], none, none⟩

/-- A store holding the single committed version 1. -/
def storeOne : List Versioned := [⟨1, "a", 10, []⟩]

/-- A store holding versions 1 and 2 (as left by a concurrent writer that
committed version 2 between another writer's read and insert). -/
def storeTwo : List Versioned := [⟨1, "a", 10, []⟩, ⟨2, "b", 11, []⟩]

/-- An example update command. -/
def cmdA : UpdateConfigCmd := ⟨"alice", [⟨0, some 7⟩, ⟨3, none⟩]⟩

/-- An example configuration value: an unset field with a default hint, a
set field with a default hint, and an unset field without a hint. -/
def fieldsEx : ConfigValue := [⟨0, some 7⟩, ⟨4, some 7⟩, ⟨0, none⟩]

theorem c1_witness :
    (UpdateConfig updReplace repoStarted [] storeOne cmdA 12
      = (.error .concurrentUpdate, storeOne)
    ∧ (storeOne.map Versioned.Version).count 1 = 1)
    ∧ UpdateConfig updReplace repoStarted storeOne storeTwo cmdA 12
      = (.error .concurrentUpdate, storeTwo)
    ∧ (storeTwo.map Versioned.Version).count 2 = 1 :=
  ⟨(c1_duplicate_insert_concurrent_error updReplace repoStarted [] storeOne
      cmdA 12 rfl (by decide)).1 cmdA.Config rfl rfl (by decide),
   (c1_duplicate_insert_concurrent_error updReplace repoStarted storeOne
      storeTwo cmdA 12 rfl (by decide)).2 ⟨1, "a", 10, []⟩ cmdA.Config rfl rfl
      (by decide)⟩

theorem c2_witness :
    ([⟨1, "alice", 1, [⟨0, some 7⟩, ⟨3, none⟩]⟩,
      ⟨2, "alice", 2, [⟨0, some 7⟩, ⟨3, none⟩]⟩] : List Versioned).map
        Versioned.Version = List.range' 1 2
    ∧ ([copyAndSetDefaultsVersioned ⟨1, "alice", 1, [⟨0, some 7⟩, ⟨3, none⟩]⟩,
        copyAndSetDefaultsVersioned
          ⟨2, "alice", 2, [⟨0, some 7⟩, ⟨3, none⟩]⟩] : List Versioned).map
        Versioned.Version = List.range' 1 2
    ∧ (([⟨1, "alice", 1, [⟨0, some 7⟩, ⟨3, none⟩]⟩,
        ⟨2, "alice", 2, [⟨0, some 7⟩, ⟨3, none⟩]⟩] : List Versioned).map
        Versioned.Version).Nodup :=
  c2_monotonic_gapless_versions updReplace repoStarted [(cmdA, 1), (cmdA, 2)]
    [⟨1, "alice", 1, [⟨0, some 7⟩, ⟨3, none⟩]⟩,
     ⟨2, "alice", 2, [⟨0, some 7⟩, ⟨3, none⟩]⟩]
    [copyAndSetDefaultsVersioned ⟨1, "alice", 1, [⟨0, some 7⟩, ⟨3, none⟩]⟩,
     copyAndSetDefaultsVersioned ⟨2, "alice", 2, [⟨0, some 7⟩, ⟨3, none⟩]⟩]
    rfl

theorem c3_witness :
    UpdateConfig updReject repoStarted [] [] cmdA 1
      = (.error (.custom "invalid config"), [])
    ∧ UpdateConfig updReject repoStarted storeOne storeOne cmdA 1
      = (.error (.custom "invalid config"), storeOne) :=
  ⟨(c3_validation_error_verbatim_no_insert updReject repoStarted [] [] cmdA 1
      (.custom "invalid config") rfl).1 rfl rfl,
   (c3_validation_error_verbatim_no_insert updReject repoStarted storeOne
      storeOne cmdA 1 (.custom "invalid config") rfl).2 ⟨1, "a", 10, []⟩
      rfl rfl⟩

theorem c4_witness :
    UpdateConfig updReplace repoStarted [] [] cmdA 1
      = (.ok (setDefaultsVersioned ⟨1, "alice", 1, [⟨0, some 7⟩, ⟨3, none⟩]⟩),
         [⟨1, "alice", 1, [⟨0, some 7⟩, ⟨3, none⟩]⟩])
    ∧ UpdateConfig updReplace repoStarted storeOne storeOne cmdA 1
      = (.ok (setDefaultsVersioned ⟨2, "alice", 1, [⟨0, some 7⟩, ⟨3, none⟩]⟩),
         storeOne ++ [⟨2, "alice", 1, [⟨0, some 7⟩, ⟨3, none⟩]⟩]) :=
  ⟨(c4_persist_raw_return_overlaid updReplace repoStarted [] [] cmdA 1 rfl).1
      cmdA.Config rfl rfl rfl,
   (c4_persist_raw_return_overlaid updReplace repoStarted storeOne storeOne
      cmdA 1 rfl).2 ⟨1, "a", 10, []⟩ cmdA.Config rfl rfl rfl⟩

theorem c5_witness :
    copyAndSetDefaults (copyAndSetDefaults fieldsEx)
      = copyAndSetDefaults fieldsEx
    ∧ deepCopy fieldsEx = fieldsEx
    ∧ (copyAndSetDefaults fieldsEx)[0]? = some ⟨7, some 7⟩
    ∧ (copyAndSetDefaults fieldsEx)[1]? = some ⟨4, some 7⟩
    ∧ (copyAndSetDefaults fieldsEx)[2]? = some ⟨0, none⟩ := by
  obtain ⟨h1, h2, _, _, _, h6⟩ :=
    c5_overlay_pure_idempotent fieldsEx 0 7 (by decide)
  obtain ⟨_, _, _, h4, _, _⟩ :=
    c5_overlay_pure_idempotent fieldsEx 1 7 (by decide)
  obtain ⟨_, _, _, _, h5, _⟩ :=
    c5_overlay_pure_idempotent fieldsEx 2 0 (by decide)
  exact ⟨h1, h2, h6 rfl rfl, h4 (by decide), h5 rfl⟩

theorem c6_witness :
    UpdateConfig updReject repoStarted [] storeOne cmdA 1
      = (.error (.custom "invalid config"), storeOne)
    ∧ UpdateConfig updReplace repoStarted [] [] cmdA 1
      = (.ok (copyAndSetDefaultsVersioned
            ⟨1, "alice", 1, [⟨0, some 7⟩, ⟨3, none⟩]⟩),
         [⟨1, "alice", 1, [⟨0, some 7⟩, ⟨3, none⟩]⟩]) :=
  ⟨(c6_first_write_self_validation updReject repoStarted [] storeOne cmdA 1
      rfl rfl).1 (.custom "invalid config") rfl,
   (c6_first_write_self_validation updReplace repoStarted [] [] cmdA 1
      rfl rfl).2 cmdA.Config rfl rfl⟩

theorem c7_witness :
    Start repoInit [] .ok (.fail "boom") .ok
      = .error (.storage ("error watching configs: " ++ "boom"))
    ∧ Start repoInit [] (.fail "boom") .ok .ok = .error (.storage "boom")
    ∧ Start repoInit [] .ok .ok (.fail "boom") = .error (.storage "boom")
    ∧ (Start repoInit [] .ok .ok .ok
        = .ok { repoInit with
                cfg := some ⟨0, "", 0, zeroConfig repoInit.shape⟩,
                cfgWithDefaults := some (copyAndSetDefaultsVersioned
                  ⟨0, "", 0, zeroConfig repoInit.shape⟩),
                started := true }
      ∧ GetConfig { repoInit with
                cfg := some ⟨0, "", 0, zeroConfig repoInit.shape⟩,
                cfgWithDefaults := some (copyAndSetDefaultsVersioned
                  ⟨0, "", 0, zeroConfig repoInit.shape⟩),
                started := true }
        = .ok (some (setDefaults (zeroConfig repoInit.shape)))) := by
  obtain ⟨h1, h2, h3, h4⟩ :=
    c7_start_subscription_seed repoInit [] "boom" .ok .ok
  exact ⟨h1, h2 rfl, h3, h4 rfl⟩

theorem c8_witness :
    GetConfig repoInit = .error .notStarted
    ∧ GetLatestVersion repoInit = .error .notStarted
    ∧ ListVersionedConfigs repoInit storeOne ⟨1, 3⟩ = .error .notStarted
    ∧ ListVersionedConfigsByDate repoInit storeOne ⟨0, 99⟩
        = .error .notStarted
    ∧ UpdateConfig updReplace repoInit storeOne storeOne cmdA 1
        = (.error .notStarted, storeOne) :=
  c8_not_started_guard updReplace repoInit storeOne storeOne cmdA 1 ⟨1, 3⟩
    ⟨0, 99⟩ rfl

theorem c9_witness :
    (∃ l, ListVersionedConfigs repoStarted exampleStore5 ⟨1, 3⟩ = .ok l
      ∧ (∀ v, v ∈ l.map Versioned.Version ↔
          ∃ r ∈ exampleStore5, r.Version = v ∧ 1 ≤ v ∧ v < 3)
      ∧ (l.map Versioned.Version).Sorted (fun a b => a ≤ b))
    ∧ Except.map (fun l => l.map Versioned.Version)
        (ListVersionedConfigs repoStarted exampleStore5 ⟨1, 3⟩)
      = .ok [1, 2]
    ∧ Except.map (fun l => l.map Versioned.Version)
        (ListVersionedConfigs repoStarted exampleStore5 ⟨6, 10⟩)
      = .ok [] :=
  c9_range_query_correct repoStarted exampleStore5 ⟨1, 3⟩ rfl

theorem c10_witness :
    ∃ r ∈ exampleStore5, (1 ≤ r.Version ∧ r.Version < 3)
      ∧ setDefaultsVersioned ⟨1, "a", 10, []⟩ = setDefaultsVersioned r :=
  (c10_list_results_overlaid repoStarted exampleStore5 ⟨1, 3⟩ ⟨10, 12⟩ rfl).1
    [setDefaultsVersioned ⟨1, "a", 10, []⟩,
     setDefaultsVersioned ⟨2, "b", 11, []⟩] rfl
    (setDefaultsVersioned ⟨1, "a", 10, []⟩) (List.mem_cons_self _ _)

end Streamingconfig
